import Mathlib

/-
Verification of the Explorer component (src/ultralytics/data/explorer/explorer.py)
and the config-table builder (src/docs/build_tables.py).

The Explorer delegates nearest-neighbor search to an external vector store;
the store is modelled here as an exact nearest-neighbor search over the stored
rows (stable sort by distance, truncated at the requested limit), which is the
contract the code relies on. Embedding computation is delegated to a model and
is abstracted as a function from image paths to vectors.
-/

namespace ExplorerModel

/-- A row of the embedding table: image file path and embedding vector. -/
structure Row where
  imFile : String
  vector : List ℚ
  deriving DecidableEq

/-- Squared Euclidean distance between two embedding vectors
(the `_distance` column returned by the store). -/
def sqDist (u v : List ℚ) : ℚ :=
  (List.zipWith (fun a b => (a - b) ^ 2) u v).sum

/-- Insert a row into a list sorted by distance to the query vector,
keeping earlier rows first among ties (stable). -/
def insertByDist (q : List ℚ) (r : Row) : List Row → List Row
  | [] => [r]
  | x :: xs =>
    if sqDist q r.vector ≤ sqDist q x.vector then r :: x :: xs
    else x :: insertByDist q r xs

/-- Stable sort of the table rows by ascending distance to the query vector. -/
def sortByDist (q : List ℚ) : List Row → List Row
  | [] => []
  | x :: xs => insertByDist q x (sortByDist q xs)

/-- The store's nearest-neighbor search: `table.search(q).limit(limit)` returns
the `limit` rows closest to `q`, in ascending distance order. -/
def search (tbl : List Row) (q : List ℚ) (limit : ℕ) : List Row :=
  (sortByDist q tbl).take limit

/-- Elementwise sum of a list of vectors (`torch.stack` followed by summation
over dimension 0). -/
def vsum : List (List ℚ) → List ℚ
  | [] => []
  | [v] => v
  | v :: rest => List.zipWith (· + ·) v (vsum rest)

/-- Elementwise arithmetic mean of a list of vectors
(`torch.mean(torch.stack(embeds), 0)`). -/
def vmean (vs : List (List ℚ)) : List ℚ :=
  (vsum vs).map (· / (vs.length : ℚ))

/-- The vector `Explorer.query` searches with: the single embedding when one
image is given, the elementwise mean of the embeddings when several are. -/
def queryVec (embed : String → List ℚ) (imgs : List String) : List ℚ :=
  let embeds := imgs.map embed
  if embeds.length > 1 then vmean embeds else embeds.headD []

/-- The similarity-index record yielded per row by
`Explorer.similarity_index._yield_sim_idx`. -/
structure SimEntry where
  idx : ℕ
  imFile : String
  count : ℕ
  simImFiles : List String
  deriving DecidableEq

/-- Errors raised by the Explorer (each constructor is one `raise ValueError`
site in the source). -/
inductive ExplorerError where
  | tableNotCreated
  | badImgType
  | topKOutOfRange
  | maxDistNegative
  | dataMissing
  | splitMissing
  | imgAndIdxNeither
  | imgAndIdxBoth
  deriving DecidableEq

/-- The mutable fields of an `Explorer` object, together with the vector-store
connection (persisted tables by name). -/
structure ExplorerState where
  tableName : String
  data : Option (List (String × List String))
  table : Option (List Row)
  simIndex : Option (List SimEntry)
  connection : List (String × List Row)
  deriving DecidableEq

/-- The `imgs` argument of `Explorer.query`: a single path, a list of paths, or
a value of any other type (rejected by the `isinstance` checks). -/
inductive ImgsArg where
  | single (s : String)
  | multiple (l : List String)
  | invalid
  deriving DecidableEq

/-- Normalization of the `imgs` argument performed by `Explorer.query`
(`imgs = [imgs]` for a single path, error for other types). -/
def normImgs : ImgsArg → Except ExplorerError (List String)
  | .single s => .ok [s]
  | .multiple l => .ok l
  | .invalid => .error .badImgType

/-- `Explorer.query`: checks that the table exists, normalizes the argument,
embeds the images, averages when several are given, and searches the store. -/
def query (embed : String → List ℚ) (st : ExplorerState) (imgs : ImgsArg)
    (limit : ℕ) : Except ExplorerError (List Row) :=
  match st.table with
  | none => .error .tableNotCreated
  | some tbl =>
    match normImgs imgs with
    | .error e => .error e
    | .ok l => .ok (search tbl (queryVec embed l) limit)

/-- `Explorer.sql_query`: delegates a predicate-pushdown filter to the store;
the filter itself is the store's, modelled as a row predicate. -/
def sql_query (st : ExplorerState) (pred : Row → Bool) :
    Except ExplorerError (List Row) :=
  match st.table with
  | none => .error .tableNotCreated
  | some tbl => .ok (tbl.filter pred)

/-- Python truthiness of the optional float `top_k` (`if top_k`): false for
`None` and for `0.0`. -/
def pyTruthy : Option ℚ → Bool
  | none => false
  | some q => q ≠ 0

/-- Python `int()` on a float: truncation toward zero. -/
def pyInt (q : ℚ) : ℤ :=
  if 0 ≤ q then ⌊q⌋ else -⌊-q⌋

/-- The per-row query limit computed by `similarity_index`:
`top_k = int(top_k * len(table)) if top_k else len(table); top_k = max(top_k, 1)`. -/
def simLimit (topK : Option ℚ) (n : ℕ) : ℕ :=
  (max (if pyTruthy topK then pyInt (topK.getD 0 * n) else (n : ℤ)) 1).toNat

/-- The row of the table at index `i` (rows are read back from the store in
insertion order). -/
def rowAt (tbl : List Row) (i : ℕ) : Row :=
  tbl.getD i ⟨"", []⟩

/-- The record produced for row `i` by `_yield_sim_idx`: self-query the store
with the row's own embedding, keep the top `topK` results, keep those within
`maxDist`, and record their number and file paths. -/
def simEntryAt (tbl : List Row) (topK : ℕ) (maxDist : ℚ) (i : ℕ) : SimEntry :=
  let q := (rowAt tbl i).vector
  let simRows := (search tbl q topK).filter (fun r => sqDist q r.vector ≤ maxDist)
  ⟨i, (rowAt tbl i).imFile, simRows.length, simRows.map Row.imFile⟩

/-- All records yielded by `_yield_sim_idx`, one per table row in order. -/
def yieldSimIdx (tbl : List Row) (topK : ℕ) (maxDist : ℚ) : List SimEntry :=
  (List.range tbl.length).map (simEntryAt tbl topK maxDist)

/-- `Explorer.similarity_index`: errors when no table exists; returns the
cached index when one exists and `force` is false; validates `top_k` and
`max_dist`; then builds one record per row and stores the result. -/
def similarity_index (st : ExplorerState) (maxDist : ℚ) (topK : Option ℚ)
    (force : Bool) : Except ExplorerError (List SimEntry × ExplorerState) :=
  match st.table with
  | none => .error .tableNotCreated
  | some tbl =>
    match st.simIndex, force with
    | some idx, false => .ok (idx, st)
    | _, _ =>
      if pyTruthy topK ∧ ¬(topK.getD 0 ≤ 1 ∧ 0 ≤ topK.getD 0) then
        .error .topKOutOfRange
      else if maxDist < 0 then .error .maxDistNegative
      else
        let entries := yieldSimIdx tbl (simLimit topK tbl.length) maxDist
        .ok (entries, { st with simIndex := some entries })

/-- Replace (or add) the named table in the connection
(`create_table(..., mode='overwrite')`). -/
def storeTable (name : String) (tbl : List Row) :
    List (String × List Row) → List (String × List Row)
  | [] => [(name, tbl)]
  | (n, t) :: rest =>
    if n = name then (name, tbl) :: rest else (n, t) :: storeTable name tbl rest

/-- `Explorer.create_embeddings_table`. The second component of the result
counts the embedding computations performed (one per dataset image, plus one
probe used to size the schema); the reuse paths perform none. -/
def create_embeddings_table (embed : String → List ℚ) (st : ExplorerState)
    (force : Bool) (split : String) :
    Except ExplorerError (ExplorerState × ℕ) :=
  if st.table ≠ none ∧ ¬force then .ok (st, 0)
  else if (st.connection.lookup st.tableName).isSome ∧ ¬force then
    .ok ({ st with table := st.connection.lookup st.tableName }, 0)
  else
    match st.data with
    | none => .error .dataMissing
    | some data =>
      match data.lookup split with
      | none => .error .splitMissing
      | some files =>
        let rows := files.map fun f => Row.mk f (embed f)
        .ok ({ st with table := some rows,
                       connection := storeTable st.tableName rows st.connection },
             files.length + 1)

/-- The `idx` argument of `get_similar`: one index or a list of indexes. -/
inductive IdxArg where
  | single (i : ℕ)
  | multiple (l : List ℕ)
  deriving DecidableEq

/-- Normalization `idx = idx if isinstance(idx, list) else [idx]`. -/
def normIdx : IdxArg → List ℕ
  | .single i => [i]
  | .multiple l => l

/-- The `img` argument of `get_similar`: one path or a list of paths. -/
inductive ImgArg where
  | single (s : String)
  | multiple (l : List String)
  deriving DecidableEq

/-- Normalization `img = img if isinstance(img, list) else [img]`. -/
def normImg : ImgArg → List String
  | .single s => [s]
  | .multiple l => l

/-- Row lookup `table.to_lance().take(idx, columns=['im_file'])`. -/
def pathAt (tbl : List Row) (i : ℕ) : String :=
  (rowAt tbl i).imFile

/-- `Explorer._check_imgs_or_idxs`: exactly one of `img` and `idx` must be
given; the index form is resolved to file paths through the table. The store
itself fails when no table exists for the index lookup. -/
def check_imgs_or_idxs (st : ExplorerState) (img : Option ImgArg)
    (idx : Option IdxArg) : Except ExplorerError (List String) :=
  match img, idx with
  | none, none => .error .imgAndIdxNeither
  | some _, some _ => .error .imgAndIdxBoth
  | none, some ia =>
    match st.table with
    | none => .error .tableNotCreated
    | some tbl => .ok ((normIdx ia).map (pathAt tbl))
  | some im, none => .ok (normImg im)

/-- `Explorer.get_similar`: resolve the argument pair, then run `query` on the
resulting list of paths. -/
def get_similar (embed : String → List ℚ) (st : ExplorerState)
    (img : Option ImgArg) (idx : Option IdxArg) (limit : ℕ) :
    Except ExplorerError (List Row) :=
  match check_imgs_or_idxs st img idx with
  | .error e => .error e
  | .ok paths => query embed st (.multiple paths) limit

end ExplorerModel

namespace BuildTables

/-- A line of text, as a list of characters. -/
abbrev Line := List Char

/-- Index of the first occurrence of `pat` as a contiguous sublist of `s`
(Python `str.find`, successful case). -/
def findSub (pat : Line) : Line → Option ℕ
  | [] => if pat = [] then some 0 else none
  | c :: rest =>
    if pat.isPrefixOf (c :: rest) then some 0 else (findSub pat rest).map (· + 1)

/-- Python `str.find`: index of the first occurrence, `-1` when absent. -/
def pyFind (pat s : Line) : ℤ :=
  match findSub pat s with
  | none => -1
  | some i => i

/-- Resolution of a Python slice bound: negative indexes count from the end,
out-of-range bounds clamp. -/
def pyIdx (n : ℕ) (i : ℤ) : ℕ :=
  if i < 0 then (max (n + i) 0).toNat else min i.toNat n

/-- Python slicing `s[l:r]` with int bounds. -/
def pySlice (s : Line) (l r : ℤ) : Line :=
  (s.take (pyIdx s.length r)).drop (pyIdx s.length l)

/-- Helper for `pySplit`: the fuel bounds the number of splits; one unit of
fuel is spent per separator occurrence, each of which consumes at least one
character, so fuel equal to the string length never runs out. -/
def pySplitAux (sep : Line) : ℕ → Line → List Line
  | 0, s => [s]
  | fuel + 1, s =>
    match findSub sep s with
    | none => [s]
    | some i => s.take i :: pySplitAux sep fuel (s.drop (i + sep.length))

/-- Python `str.split(sep)` with a non-empty separator: split at every
non-overlapping occurrence, left to right. -/
def pySplit (sep s : Line) : List Line :=
  if sep.isEmpty then [s] else pySplitAux sep s.length s

/-- Helper for `replaceAll`: fuel equal to the string length suffices, since
every step consumes at least one character. -/
def replaceAllAux (pat rep : Line) : ℕ → Line → Line
  | 0, s => s
  | _ + 1, [] => []
  | fuel + 1, c :: rest =>
    if pat.isPrefixOf (c :: rest) then
      rep ++ replaceAllAux pat rep fuel ((c :: rest).drop pat.length)
    else c :: replaceAllAux pat rep fuel rest

/-- Python `str.replace(pat, rep)` with a non-empty pattern: replace every
non-overlapping occurrence, left to right. -/
def replaceAll (pat rep s : Line) : Line :=
  if pat.isEmpty then s else replaceAllAux pat rep s.length s

/-- Python `str.strip(chars)`: drop characters of `cs` from both ends. -/
def stripSet (cs : Line) (s : Line) : Line :=
  ((s.dropWhile (· ∈ cs)).reverse.dropWhile (· ∈ cs)).reverse

/-- Python `str.strip()`: drop whitespace from both ends. -/
def stripWs (s : Line) : Line :=
  ((s.dropWhile Char.isWhitespace).reverse.dropWhile Char.isWhitespace).reverse

/-- Errors of the builder: an entry line without exactly one `"# "` separator,
or an entry part without exactly one `": "` separator, makes the unpacking
`a, b = x.split(sep)` raise. -/
inductive BuildError where
  | badEntryLine
  | badKeyValue
  deriving DecidableEq

deriving instance DecidableEq for Except

/-- `section_depth`: number of `#` characters in the first space-separated
token of the line. -/
def section_depth (line : Line) : ℕ :=
  ((line.takeWhile (· ≠ ' ')).filter (· = '#')).length

/-- `text_2_key`: strip `#`, space and `-` from both ends and append `": "`. -/
def text_2_key (line : Line) : Line :=
  stripSet ("# -").toList line ++ (": ").toList

/-- The replacements applied to the extracted type text:
`|` to `or`, `optional` removed, `, ` removed, in this order. -/
def typeReps (t : Line) : Line :=
  replaceAll (", ").toList [] (replaceAll ("optional").toList []
    (replaceAll ("|").toList ("or").toList t))

/-- `extract_type`: slice between the first `(` and the first `)`, strip the
parenthesis characters, apply the replacements; the rest of the line after the
closing parenthesis, whitespace-stripped, is returned alongside. -/
def extract_type (line : Line) : Line × Line :=
  let l := pyFind ("(").toList line
  let r := pyFind (")").toList line
  let lType := stripSet (")(").toList (pySlice line l r)
  let rest := stripWs (pySlice line (r + 1) (line.length : ℤ))
  (typeReps lType, rest)

/-- Processing of the comment part of an entry line (lines 94-95 of the
builder): truncate at the first `http`, replace every `:` by `" -"`, then run
`extract_type` on the transformed text. -/
def processComment (comment : Line) : Line × Line :=
  extract_type (replaceAll (":").toList (" -").toList
    ((pySplit ("http").toList comment).headD []))

/-- A parsed entry line: key, default value, declared type, description. -/
structure EntryData where
  key : Line
  value : Line
  vtype : Line
  desc : Line
  deriving DecidableEq

/-- Parsing of one section entry line:
`entry, comment = line.split("# ")`, comment processing, and
`k, v = entry.split(": ")`. -/
def parseEntry (line : Line) : Except BuildError EntryData :=
  match pySplit ("# ").toList line with
  | [entry, comment] =>
    let (vType, desc) := processComment comment
    match pySplit (": ").toList entry with
    | [k, v] => .ok ⟨k, v, vType, desc⟩
    | _ => .error .badKeyValue
  | _ => .error .badEntryLine

/-- One fragment appended to a section's text by the building loop: either an
entry (with the sub-section flags in force when it was appended) or a
sub-section heading. -/
inductive Fragment where
  | entry (e : EntryData) (isSub : Bool) (subD : ℕ)
  | subheading (title : Line) (depth : ℕ)
  deriving DecidableEq

/-- The building loop of lines 90-108: collect entries until a line of heading
depth 1; a line of depth at least 2 starts a sub-section and collection
continues. -/
def collectFragments : List Line → Bool → ℕ → Except BuildError (List Fragment)
  | [], _, _ => .ok []
  | line :: rest, isSub, subD =>
    if section_depth line = 0 then
      match parseEntry line with
      | .error e => .error e
      | .ok ed => (collectFragments rest isSub subD).map (Fragment.entry ed isSub subD :: ·)
    else if section_depth line = 1 then .ok []
    else
      (collectFragments rest true (section_depth line)).map
        (Fragment.subheading (text_2_key line) (section_depth line) :: ·)

/-- The fixed allow-list `cfg_sections`. -/
def cfg_sections : List Line :=
  [("Train settings").toList, ("Segmentation train settings").toList,
   ("Classification train settings").toList, ("Val/Test settings").toList,
   ("Predict settings").toList, ("Visualize settings").toList,
   ("Export settings").toList, ("Hyperparameters").toList,
   ("Augmentation").toList, ("Segmentation Augmentations").toList,
   ("Classification Augmentations").toList, ("Custom config.yaml").toList,
   ("Tracker").toList]

/-- `n_section`: the heading marker of depth `N`. -/
def n_section (N : ℕ) : Line :=
  List.replicate N '#' ++ [' ']

/-- `find_sections`: for each depth from 1 to `maxRepeats`, the lines starting
with that depth's heading marker, stripped of `' '` and `'-'`. -/
def find_sections (txtData : List Line) (maxRepeats : ℕ) : List Line :=
  (((List.range maxRepeats).map (· + 1)).map fun i =>
    (txtData.filter fun l => (n_section i).isPrefixOf l).map
      (stripSet (" -").toList)).flatten

/-- The recognized sections of the text: heading lines whose stripped title is
in the allow-list. -/
def sectionsOf (txt : List Line) : List Line :=
  (find_sections txt 2).filter fun x => stripSet ("# ").toList x ∈ cfg_sections

/-- The whole builder loop: for each recognized section, the fragments
collected from the lines following its (first) occurrence. -/
def buildTables (txt : List Line) : Except BuildError (List (Line × List Fragment)) :=
  (sectionsOf txt).mapM fun s =>
    (collectFragments (txt.drop (txt.indexOf s + 1)) false 0).map (fun fs => (s, fs))

/-- Contents of the first parenthesized group of a comment, read off the raw
text as the spec words it (stated for comparison with `processComment`). -/
def parenGroup (c : Line) : Line :=
  ((c.dropWhile (· ≠ '(')).drop 1).takeWhile (· ≠ ')')

/-- Text after the first closing parenthesis of a comment, read off the raw
text as the spec words it. -/
def afterParen (c : Line) : Line :=
  (c.dropWhile (· ≠ ')')).drop 1

/-- Everything from the first occurrence of `http` onward dropped. -/
def dropFromHttp (c : Line) : Line :=
  c.take ((findSub ("http").toList c).getD c.length)

/-- The type/description extraction exactly as the spec claim words it: the
type is the contents of the first parenthesized group of the raw comment (with
the replacements applied), and the description is the text after the closing
parenthesis with the `http` suffix dropped and colons replaced by `" -"`.
Stated for comparison with `processComment`. -/
def specTypeDesc (c : Line) : Line × Line :=
  (typeReps (parenGroup c),
   stripWs (replaceAll (":").toList (" -").toList (dropFromHttp (afterParen c))))

/-- Concrete builder input: a recognized depth-2 section followed by a second
recognized depth-2 heading and one further entry line. -/
def txtEqualDepth : List Line :=
  [("## Tracker").toList, ("a: 1 # (int) x").toList,
   ("## Hyperparameters").toList, ("b: 2 # (int) y").toList]

end BuildTables

namespace ExplorerModel

theorem sqDist_nonneg (u v : List ℚ) : 0 ≤ sqDist u v := by
  induction u generalizing v with
  | nil => simp [sqDist]
  | cons a u ih =>
    cases v with
    | nil => simp [sqDist]
    | cons b v =>
      simp only [sqDist, List.zipWith_cons_cons, List.sum_cons]
      exact add_nonneg (sq_nonneg _) (ih v)

theorem sqDist_self (v : List ℚ) : sqDist v v = 0 := by
  induction v with
  | nil => simp [sqDist]
  | cons a v ih =>
    simp only [sqDist, List.zipWith_cons_cons, List.sum_cons, sub_self] at *
    simp [ih]

theorem mem_insertByDist {q : List ℚ} {r x : Row} {l : List Row} :
    x ∈ insertByDist q r l ↔ x = r ∨ x ∈ l := by
  induction l with
  | nil => simp [insertByDist]
  | cons y ys ih =>
    by_cases h : sqDist q r.vector ≤ sqDist q y.vector
    · simp only [insertByDist, if_pos h, List.mem_cons]
    · simp only [insertByDist, if_neg h, List.mem_cons, ih]
      tauto

theorem mem_sortByDist {q : List ℚ} {x : Row} {l : List Row} :
    x ∈ sortByDist q l ↔ x ∈ l := by
  induction l with
  | nil => simp [sortByDist]
  | cons y ys ih => simp [sortByDist, mem_insertByDist, ih]

theorem pairwise_insertByDist {q : List ℚ} {r : Row} {l : List Row}
    (hl : l.Pairwise (fun a b => sqDist q a.vector ≤ sqDist q b.vector)) :
    (insertByDist q r l).Pairwise
      (fun a b => sqDist q a.vector ≤ sqDist q b.vector) := by
  induction l with
  | nil => simp [insertByDist]
  | cons y ys ih =>
    rcases List.pairwise_cons.mp hl with ⟨hy, hys⟩
    by_cases h : sqDist q r.vector ≤ sqDist q y.vector
    · rw [insertByDist, if_pos h]
      refine List.Pairwise.cons ?_ hl
      intro z hz
      rcases List.mem_cons.mp hz with rfl | hz
      · exact h
      · exact le_trans h (hy z hz)
    · rw [insertByDist, if_neg h]
      refine List.Pairwise.cons ?_ (ih hys)
      intro z hz
      rcases mem_insertByDist.mp hz with rfl | hz
      · exact le_of_not_le h
      · exact hy z hz

theorem pairwise_sortByDist (q : List ℚ) (l : List Row) :
    (sortByDist q l).Pairwise
      (fun a b => sqDist q a.vector ≤ sqDist q b.vector) := by
  induction l with
  | nil => simp [sortByDist]
  | cons y ys ih => exact pairwise_insertByDist ih

theorem mem_of_mem_search {tbl : List Row} {q : List ℚ} {k : ℕ} {x : Row}
    (h : x ∈ search tbl q k) : x ∈ tbl :=
  mem_sortByDist.mp (List.mem_of_mem_take h)

theorem search_length_le (tbl : List Row) (q : List ℚ) (k : ℕ) :
    (search tbl q k).length ≤ k := by
  simp only [search, List.length_take]
  exact min_le_left _ _

theorem self_mem_search {tbl : List Row} {x : Row} {k : ℕ}
    (hx : x ∈ tbl)
    (huniq : ∀ r ∈ tbl, sqDist x.vector r.vector = 0 → r = x)
    (hk : 1 ≤ k) : x ∈ search tbl x.vector k := by
  have hmem : x ∈ sortByDist x.vector tbl := mem_sortByDist.mpr hx
  obtain ⟨h, t, hs⟩ : ∃ h t, sortByDist x.vector tbl = h :: t := by
    cases hsort : sortByDist x.vector tbl with
    | nil => rw [hsort] at hmem; simp at hmem
    | cons h t => exact ⟨h, t, rfl⟩
  have hpw := pairwise_sortByDist x.vector tbl
  rw [hs] at hpw hmem
  have hhead : h = x := by
    rcases List.mem_cons.mp hmem with rfl | hxt
    · rfl
    · have hle : sqDist x.vector h.vector ≤ sqDist x.vector x.vector :=
        (List.pairwise_cons.mp hpw).1 x hxt
      rw [sqDist_self] at hle
      have h0 : sqDist x.vector h.vector = 0 :=
        le_antisymm hle (sqDist_nonneg _ _)
      have hht : h ∈ tbl := mem_sortByDist.mp (by rw [hs]; exact List.mem_cons_self h t)
      exact huniq h hht h0
  rw [search, hs]
  cases k with
  | zero => omega
  | succ n =>
    rw [List.take_succ_cons, hhead]
    exact List.mem_cons_self x _

theorem similarity_index_fresh (st : ExplorerState) (tbl : List Row)
    (maxDist : ℚ) (topK : Option ℚ) (force : Bool)
    (htbl : st.table = some tbl) (hfresh : st.simIndex = none ∨ force = true) :
    similarity_index st maxDist topK force =
      if pyTruthy topK ∧ ¬(topK.getD 0 ≤ 1 ∧ 0 ≤ topK.getD 0) then
        .error .topKOutOfRange
      else if maxDist < 0 then .error .maxDistNegative
      else
        .ok (yieldSimIdx tbl (simLimit topK tbl.length) maxDist,
          { st with
            simIndex := some (yieldSimIdx tbl (simLimit topK tbl.length) maxDist) }) := by
  rcases hfresh with hsi | hf
  · simp [similarity_index, htbl, hsi]
  · subst hf
    cases hsi : st.simIndex <;> simp [similarity_index, htbl, hsi]

/-- C6: for every argument value, `query`, `sql_query` and `similarity_index`
each raise the table-not-created configuration error, performing no search,
when the embedding table has not been created. -/
theorem ops_error_without_table (embed : String → List ℚ) (st : ExplorerState)
    (imgs : ImgsArg) (pred : Row → Bool) (maxDist : ℚ) (topK : Option ℚ)
    (force : Bool) (limit : ℕ) (h : st.table = none) :
    query embed st imgs limit = .error .tableNotCreated ∧
    sql_query st pred = .error .tableNotCreated ∧
    similarity_index st maxDist topK force = .error .tableNotCreated := by
  refine ⟨?_, ?_, ?_⟩ <;> simp [query, sql_query, similarity_index, h]

/-- Witness for C6 at a concrete uninitialized state. -/
theorem ops_error_without_table_witness :
    query (fun _ => [0]) ⟨"t", none, none, none, []⟩ .invalid 5 =
      .error .tableNotCreated ∧
    sql_query ⟨"t", none, none, none, []⟩ (fun _ => true) =
      .error .tableNotCreated ∧
    similarity_index ⟨"t", none, none, none, []⟩ (-1) (some 2) true =
      .error .tableNotCreated :=
  ops_error_without_table (fun _ => [0]) ⟨"t", none, none, none, []⟩ .invalid
    (fun _ => true) (-1) (some 2) true 5 rfl

/-- C10: when a similarity index is cached and `force` is false, the cached
index is returned unchanged before any validation of `max_dist` or `top_k`,
for every value of those arguments, and the state is untouched. -/
theorem similarity_index_cached_skips_validation (st : ExplorerState)
    (tbl : List Row) (idx : List SimEntry) (maxDist : ℚ) (topK : Option ℚ)
    (htbl : st.table = some tbl) (hidx : st.simIndex = some idx) :
    similarity_index st maxDist topK false = .ok (idx, st) := by
  simp [similarity_index, htbl, hidx]

/-- Witness for C10 with an out-of-range `top_k` and a negative `max_dist`. -/
theorem similarity_index_cached_skips_validation_witness :
    similarity_index ⟨"t", none, some [⟨"a", [0]⟩], some [⟨0, "c", 1, ["c"]⟩], []⟩
      (-1) (some (3/2)) false =
      .ok ([⟨0, "c", 1, ["c"]⟩],
        ⟨"t", none, some [⟨"a", [0]⟩], some [⟨0, "c", 1, ["c"]⟩], []⟩) :=
  similarity_index_cached_skips_validation _ [⟨"a", [0]⟩] _ (-1) (some (3/2))
    rfl rfl

/-- C7: with `force` false, `create_embeddings_table` is a no-op when a table
is held in memory (state returned unchanged, zero embeddings computed), and
merely reopens a persisted table of the Explorer's name (same stored rows,
zero embeddings computed). -/
theorem create_embeddings_table_reuses (embed : String → List ℚ)
    (st : ExplorerState) (tbl ptbl : List Row) (split : String) :
    (st.table = some tbl →
      create_embeddings_table embed st false split = .ok (st, 0)) ∧
    (st.table = none → st.connection.lookup st.tableName = some ptbl →
      create_embeddings_table embed st false split =
        .ok ({ st with table := some ptbl }, 0)) := by
  constructor
  · intro h
    rw [create_embeddings_table, if_pos ⟨by simp [h], by simp⟩]
  · intro h hp
    rw [create_embeddings_table, if_neg (by simp [h]),
      if_pos ⟨by simp [hp], by simp⟩, hp]

/-- Witness for C7: an in-memory table is reused as is; a persisted table is
reopened by name with its contents intact; both perform zero embedding work. -/
theorem create_embeddings_table_reuses_witness :
    create_embeddings_table (fun _ => [0])
      ⟨"t", none, some [⟨"a", [0]⟩], none, []⟩ false "train" =
      .ok (⟨"t", none, some [⟨"a", [0]⟩], none, []⟩, 0) ∧
    create_embeddings_table (fun _ => [0])
      ⟨"t", none, none, none, [("t", [⟨"a", [5]⟩])]⟩ false "train" =
      .ok (⟨"t", none, some [⟨"a", [5]⟩], none, [("t", [⟨"a", [5]⟩])]⟩, 0) :=
  ⟨(create_embeddings_table_reuses (fun _ => [0]) _ [⟨"a", [0]⟩] [] "train").1 rfl,
   (create_embeddings_table_reuses (fun _ => [0]) _ [] [⟨"a", [5]⟩] "train").2 rfl rfl⟩

/-- C5: `get_similar` errors when both `img` and `idx` are supplied and when
neither is; given only `idx`, it resolves the indexes to file paths through
the table and proceeds as a normal `query` on those paths. -/
theorem get_similar_requires_exactly_one (embed : String → List ℚ)
    (st : ExplorerState) (tbl : List Row) (idxs : List ℕ) (i : ℕ) (limit : ℕ)
    (htbl : st.table = some tbl) :
    (∀ im ia, get_similar embed st (some im) (some ia) limit =
      .error .imgAndIdxBoth) ∧
    (get_similar embed st none none limit = .error .imgAndIdxNeither) ∧
    (get_similar embed st none (some (.multiple idxs)) limit =
      query embed st (.multiple (idxs.map (pathAt tbl))) limit) ∧
    (get_similar embed st none (some (.single i)) limit =
      query embed st (.multiple [pathAt tbl i]) limit) := by
  refine ⟨fun im ia => rfl, rfl, ?_, ?_⟩ <;>
    simp [get_similar, check_imgs_or_idxs, htbl, normIdx]

/-- Witness for C5 on a two-row table. -/
theorem get_similar_requires_exactly_one_witness :
    get_similar (fun _ => [0]) ⟨"t", none, some [⟨"a", [0]⟩, ⟨"b", [1]⟩], none, []⟩
      (some (.single "a")) (some (.single 0)) 5 = .error .imgAndIdxBoth ∧
    get_similar (fun _ => [0]) ⟨"t", none, some [⟨"a", [0]⟩, ⟨"b", [1]⟩], none, []⟩
      none none 5 = .error .imgAndIdxNeither ∧
    get_similar (fun _ => [0]) ⟨"t", none, some [⟨"a", [0]⟩, ⟨"b", [1]⟩], none, []⟩
      none (some (.multiple [1, 0])) 5 =
      query (fun _ => [0]) ⟨"t", none, some [⟨"a", [0]⟩, ⟨"b", [1]⟩], none, []⟩
        (.multiple ["b", "a"]) 5 :=
  ⟨(get_similar_requires_exactly_one (fun _ => [0]) _ [⟨"a", [0]⟩, ⟨"b", [1]⟩]
      [1, 0] 0 5 rfl).1 (.single "a") (.single 0),
   (get_similar_requires_exactly_one (fun _ => [0]) _ [⟨"a", [0]⟩, ⟨"b", [1]⟩]
      [1, 0] 0 5 rfl).2.1,
   (get_similar_requires_exactly_one (fun _ => [0]) _ [⟨"a", [0]⟩, ⟨"b", [1]⟩]
      [1, 0] 0 5 rfl).2.2.1⟩

/-- C4: once validation is reached (table present, and no cached index kept
back by `force=False`), `similarity_index` raises a validation error for every
`top_k` outside the unit interval and for every negative `max_dist`, with no
index computed and the stored similarity index left unchanged. -/
theorem similarity_index_validates_inputs (st : ExplorerState) (tbl : List Row)
    (maxDist t : ℚ) (topK : Option ℚ) (force : Bool)
    (htbl : st.table = some tbl) (hfresh : st.simIndex = none ∨ force = true) :
    (topK = some t → t < 0 ∨ 1 < t →
      similarity_index st maxDist topK force = .error .topKOutOfRange) ∧
    (topK = none ∨ (topK = some t ∧ 0 ≤ t ∧ t ≤ 1) → maxDist < 0 →
      similarity_index st maxDist topK force = .error .maxDistNegative) := by
  rw [similarity_index_fresh st tbl maxDist topK force htbl hfresh]
  constructor
  · rintro rfl hrange
    have htr : pyTruthy (some t) = true := by
      simp only [pyTruthy, decide_eq_true_eq, ne_eq]
      rcases hrange with h | h <;> intro h0 <;> rw [h0] at h <;> norm_num at h
    rw [if_pos ⟨htr, by
      simp only [Option.getD_some, not_and, not_le]
      rcases hrange with h | h
      · intro hc; linarith
      · intro hc; linarith⟩]
  · intro hvalid hneg
    have hcond : ¬(pyTruthy topK = true ∧
        ¬(topK.getD 0 ≤ 1 ∧ 0 ≤ topK.getD 0)) := by
      rcases hvalid with rfl | ⟨rfl, h0, h1⟩
      · simp [pyTruthy]
      · intro hc
        exact hc.2 ⟨by simpa using h1, by simpa using h0⟩
    rw [if_neg hcond, if_pos hneg]

/-- Witness for C4: `top_k = 1.5` and `max_dist = -0.1` each raise, on a state
with a table and no cached index. -/
theorem similarity_index_validates_inputs_witness :
    similarity_index ⟨"t", none, some [⟨"a", [0]⟩], none, []⟩ 1 (some (3/2))
      true = .error .topKOutOfRange ∧
    similarity_index ⟨"t", none, some [⟨"a", [0]⟩], none, []⟩ (-1/10) none
      true = .error .maxDistNegative :=
  ⟨(similarity_index_validates_inputs _ [⟨"a", [0]⟩] 1 (3/2) (some (3/2)) true
      rfl (Or.inl rfl)).1 rfl (Or.inr (by norm_num)),
   (similarity_index_validates_inputs _ [⟨"a", [0]⟩] (-1/10) 0 none true
      rfl (Or.inl rfl)).2 (Or.inl rfl) (by norm_num)⟩

/-- C1 counterexample: on the two-row table with vectors `[0]` and `[1]`,
`max_dist = 2` and a per-row limit of 2, the record for row 0 is
`⟨0, "a", 2, ["a", "b"]⟩`: the count is 2 and the row's own file "a" is
listed, whereas a count of other images only would be 1 with list `["b"]`. -/
theorem similarity_index_counts_self_cex :
    (yieldSimIdx [⟨"a", [0]⟩, ⟨"b", [1]⟩] 2 2)[0]? =
      some ⟨0, "a", 2, ["a", "b"]⟩ ∧
    (yieldSimIdx [⟨"a", [0]⟩, ⟨"b", [1]⟩] 2 2)[0]? ≠
      some ⟨0, "a", 1, ["b"]⟩ := by
  norm_num [yieldSimIdx, simEntryAt, search, sortByDist, insertByDist, sqDist,
    rowAt, List.range_succ, List.filter]

/-- C1 amended: the record for row `i` carries the row's file path, a count
equal to the length of the recorded file list, at most `top_k` entries, only
files of table images within `max_dist` of the row's embedding — and the
row's own image is among them (here under the hypothesis that no other row
sits at distance zero, so that the self-query returns the row itself
first). -/
theorem similarity_index_entry_spec (tbl : List Row) (maxDist : ℚ)
    (topK i : ℕ) (hi : i < tbl.length) (hd : 0 ≤ maxDist) (hk : 1 ≤ topK)
    (huniq : ∀ r ∈ tbl,
      sqDist (rowAt tbl i).vector r.vector = 0 → r = rowAt tbl i) :
    ∃ e, (yieldSimIdx tbl topK maxDist)[i]? = some e ∧
      e.idx = i ∧ e.imFile = (rowAt tbl i).imFile ∧
      e.count = e.simImFiles.length ∧ e.simImFiles.length ≤ topK ∧
      (rowAt tbl i).imFile ∈ e.simImFiles ∧
      ∀ f ∈ e.simImFiles, ∃ r ∈ tbl, r.imFile = f ∧
        sqDist (rowAt tbl i).vector r.vector ≤ maxDist := by
  refine ⟨simEntryAt tbl topK maxDist i, ?_, rfl, rfl, ?_, ?_, ?_, ?_⟩
  · rw [yieldSimIdx, List.getElem?_map, List.getElem?_range hi]
    rfl
  · simp [simEntryAt]
  · simp only [simEntryAt, List.length_map]
    exact le_trans (List.length_filter_le _ _) (search_length_le _ _ _)
  · have hx : rowAt tbl i ∈ tbl := by
      rw [rowAt, List.getD_eq_getElem _ _ hi]
      exact List.getElem_mem _
    have hs : rowAt tbl i ∈ search tbl (rowAt tbl i).vector topK :=
      self_mem_search hx huniq hk
    simp only [simEntryAt]
    exact List.mem_map_of_mem Row.imFile
      (List.mem_filter.mpr ⟨hs, by simpa [sqDist_self] using hd⟩)
  · intro f hf
    simp only [simEntryAt, List.mem_map] at hf
    obtain ⟨r, hr, rfl⟩ := hf
    rw [List.mem_filter] at hr
    exact ⟨r, mem_of_mem_search hr.1, rfl, by simpa using hr.2⟩

/-- Witness for the amended C1 on the two-row table of the counterexample. -/
theorem similarity_index_entry_spec_witness :
    ∃ e, (yieldSimIdx [⟨"a", [0]⟩, ⟨"b", [1]⟩] 2 2)[0]? = some e ∧
      e.idx = 0 ∧
      e.imFile = (rowAt [⟨"a", [0]⟩, ⟨"b", [1]⟩] 0).imFile ∧
      e.count = e.simImFiles.length ∧ e.simImFiles.length ≤ 2 ∧
      (rowAt [⟨"a", [0]⟩, ⟨"b", [1]⟩] 0).imFile ∈ e.simImFiles ∧
      ∀ f ∈ e.simImFiles, ∃ r ∈ ([⟨"a", [0]⟩, ⟨"b", [1]⟩] : List Row),
        r.imFile = f ∧
        sqDist (rowAt [⟨"a", [0]⟩, ⟨"b", [1]⟩] 0).vector r.vector ≤ 2 :=
  similarity_index_entry_spec [⟨"a", [0]⟩, ⟨"b", [1]⟩] 2 2 0 (by norm_num)
    (by norm_num) (by norm_num)
    (by norm_num [sqDist, rowAt, List.forall_mem_cons])

/-- C2 counterexample: at `top_k = 0` (a fraction inside `[0, 1]`, but falsy
in Python) on a 2-row table, the per-row limit is the full table size 2, not
`max(int(0 * 2), 1) = 1`; row 0's self-query indeed returns 2 results. -/
theorem simLimit_zero_fraction_cex :
    simLimit (some 0) 2 = 2 ∧
    (max (pyInt ((0 : ℚ) * 2)) 1).toNat = 1 ∧
    simLimit (some 0) 2 ≠ (max (pyInt ((0 : ℚ) * 2)) 1).toNat ∧
    ((yieldSimIdx [⟨"a", [0]⟩, ⟨"b", [1]⟩] (simLimit (some 0) 2) 10)[0]?).map
      SimEntry.count = some 2 := by
  norm_num [simLimit, pyTruthy, pyInt, yieldSimIdx, simEntryAt, search,
    sortByDist, insertByDist, sqDist, rowAt, List.range_succ, List.filter] <;>
    omega

/-- C2 amended: for every fraction `t` with `0 < t ≤ 1`, the per-row limit is
exactly `max(int(t * n), 1)`, and every record of the index built with that
limit lists at most that many neighbors (`t = 0`, being falsy, instead uses
the full table size). -/
theorem simLimit_fraction_spec (t : ℚ) (n : ℕ) (tbl : List Row) (d : ℚ)
    (h0 : 0 < t) (h1 : t ≤ 1) :
    simLimit (some t) n = (max ⌊t * (n : ℚ)⌋ 1).toNat ∧
    ∀ e ∈ yieldSimIdx tbl (simLimit (some t) tbl.length) d,
      e.simImFiles.length ≤ (max ⌊t * ((tbl.length : ℕ) : ℚ)⌋ 1).toNat := by
  have hlim : ∀ m : ℕ, simLimit (some t) m = (max ⌊t * (m : ℚ)⌋ 1).toNat := by
    intro m
    have ht : pyTruthy (some t) = true := by
      simp only [pyTruthy, decide_eq_true_eq, ne_eq]
      intro h
      rw [h] at h0
      exact lt_irrefl 0 h0
    have hnn : (0 : ℚ) ≤ t * (m : ℚ) := mul_nonneg h0.le (Nat.cast_nonneg m)
    simp [simLimit, ht, pyInt, hnn]
  refine ⟨hlim n, ?_⟩
  intro e he
  rw [yieldSimIdx] at he
  obtain ⟨j, hj, rfl⟩ := List.mem_map.mp he
  have hb : (simEntryAt tbl (simLimit (some t) tbl.length) d j).simImFiles.length ≤
      simLimit (some t) tbl.length := by
    simp only [simEntryAt, List.length_map]
    exact le_trans (List.length_filter_le _ _) (search_length_le _ _ _)
  exact hlim tbl.length ▸ hb

/-- Witness for the amended C2: `top_k = 0.5` on a 10-row count gives the
limit 5, the spec's own test case. -/
theorem simLimit_fraction_spec_witness :
    simLimit (some (1/2)) 10 = 5 :=
  (simLimit_fraction_spec (1/2) 10 [] 0 (by norm_num) (by norm_num)).1.trans
    (by norm_num <;> omega)

/-- C3: `query` searches on the single embedding, unchanged, for one image,
and on the elementwise arithmetic mean of the embeddings for two or more; the
result is the store search at exactly that vector. -/
theorem query_searches_mean (embed : String → List ℚ) (st : ExplorerState)
    (tbl : List Row) (a b : String) (imgs : List String) (limit : ℕ)
    (htbl : st.table = some tbl) :
    queryVec embed [a] = embed a ∧
    queryVec embed [a, b] =
      List.zipWith (fun x y => (x + y) / 2) (embed a) (embed b) ∧
    (2 ≤ imgs.length → queryVec embed imgs = vmean (imgs.map embed)) ∧
    query embed st (.multiple imgs) limit =
      .ok (search tbl (queryVec embed imgs) limit) := by
  refine ⟨?_, ?_, ?_, ?_⟩
  · simp [queryVec]
  · have h2 : vsum [embed a, embed b] = List.zipWith (· + ·) (embed a) (embed b) := rfl
    simp only [queryVec, List.map_cons, List.map_nil, List.length_cons,
      List.length_nil, vmean, h2, List.map_zipWith]
    norm_num
  · intro h
    simp only [queryVec, List.length_map]
    rw [if_pos (by omega)]
  · simp [query, htbl, normImgs]

/-- Witness for C3: with embeddings `[0, 2]` for "a" and `[4, 6]` for "b",
the two-image query searches at the mean `[2, 4]` and returns the row "c"
(nearest to the mean), which is nearest to neither individual embedding. -/
theorem query_searches_mean_witness :
    queryVec (fun s => if s = "a" then [0, 2] else [4, 6]) ["a"] =
      (fun s => if s = "a" then [0, 2] else [4, 6]) "a" ∧
    queryVec (fun s => if s = "a" then [0, 2] else [4, 6]) ["a", "b"] =
      List.zipWith (fun x y => (x + y) / 2) [0, 2] [4, 6] ∧
    query (fun s => if s = "a" then [0, 2] else [4, 6])
      ⟨"t", none, some [⟨"a", [0, 2]⟩, ⟨"b", [4, 6]⟩, ⟨"c", [2, 4]⟩], none, []⟩
      (.multiple ["a", "b"]) 1 = .ok [⟨"c", [2, 4]⟩] := by
  have h := query_searches_mean (fun s => if s = "a" then [0, 2] else [4, 6])
    ⟨"t", none, some [⟨"a", [0, 2]⟩, ⟨"b", [4, 6]⟩, ⟨"c", [2, 4]⟩], none, []⟩
    [⟨"a", [0, 2]⟩, ⟨"b", [4, 6]⟩, ⟨"c", [2, 4]⟩] "a" "b" ["a", "b"] 1 rfl
  refine ⟨h.1, by simpa using h.2.1, h.2.2.2.trans ?_⟩
  norm_num [search, queryVec, vmean, vsum, sortByDist, insertByDist, sqDist,
    show ("b" : String) ≠ "a" from by decide]

end ExplorerModel

namespace BuildTables

theorem dropWhile_eq_self_of {p : Char → Bool} {l : Line}
    (h : ∀ c ∈ l, p c = false) : l.dropWhile p = l := by
  cases l with
  | nil => rfl
  | cons c t =>
    rw [List.dropWhile_cons, if_neg (by simp [h c (List.mem_cons_self c t)])]

theorem stripSet_cons_of_mem {cs : Line} {c : Char} {l : Line}
    (hc : c ∈ cs) (h : ∀ d ∈ l, d ∉ cs) : stripSet cs (c :: l) = l := by
  have hone : List.dropWhile (fun x => decide (x ∈ cs)) l = l :=
    dropWhile_eq_self_of (fun d hd => by simp [h d hd])
  have htwo : List.dropWhile (fun x => decide (x ∈ cs)) l.reverse = l.reverse :=
    dropWhile_eq_self_of (fun d hd => by simp [h d (List.mem_reverse.mp hd)])
  rw [stripSet, List.dropWhile_cons, if_pos (by simpa using hc), hone, htwo,
    List.reverse_reverse]

theorem findSub_singleton_append {a : Char} {pre rest : Line} (h : a ∉ pre) :
    findSub [a] (pre ++ a :: rest) = some pre.length := by
  induction pre with
  | nil => simp [findSub, List.isPrefixOf]
  | cons c pc ih =>
    rw [List.mem_cons, not_or] at h
    have hca : ([a].isPrefixOf (c :: (pc ++ a :: rest))) = false := by
      simp [List.isPrefixOf, h.1]
    simp [findSub, hca, ih h.2]

theorem pyIdx_natCast (n k : ℕ) : pyIdx n (k : ℤ) = min k n := by
  rw [pyIdx, if_neg (by omega)]
  simp

theorem extract_type_shape (pre ty rest : Line)
    (h1 : '(' ∉ pre) (h2 : ')' ∉ pre) (h3 : '(' ∉ ty) (h4 : ')' ∉ ty) :
    extract_type (pre ++ '(' :: (ty ++ ')' :: rest)) =
      (typeReps ty, stripWs rest) := by
  have hassoc : (pre ++ '(' :: ty) ++ ')' :: rest =
      pre ++ '(' :: (ty ++ ')' :: rest) := by simp
  have hassoc2 : (pre ++ '(' :: (ty ++ [')'])) ++ rest =
      pre ++ '(' :: (ty ++ ')' :: rest) := by simp
  have hnp : ')' ∉ pre ++ '(' :: ty := by
    intro hmem
    rcases List.mem_append.mp hmem with hm | hm
    · exact h2 hm
    · rcases List.mem_cons.mp hm with he | hm
      · exact absurd he (by decide)
      · exact h4 hm
  have hlenA : (pre ++ '(' :: ty).length = pre.length + ty.length + 1 := by
    simp only [List.length_append, List.length_cons]
    omega
  have hlenB : (pre ++ '(' :: (ty ++ [')'])).length =
      pre.length + ty.length + 2 := by
    simp only [List.length_append, List.length_cons, List.length_nil]
    omega
  have hfl : findSub (("(").toList) (pre ++ '(' :: (ty ++ ')' :: rest)) =
      some pre.length := findSub_singleton_append h1
  have hfr : findSub ((")").toList) (pre ++ '(' :: (ty ++ ')' :: rest)) =
      some (pre.length + ty.length + 1) := by
    have h0 : findSub [')'] ((pre ++ '(' :: ty) ++ ')' :: rest) =
        some ((pre ++ '(' :: ty).length) := findSub_singleton_append hnp
    rw [hassoc, hlenA] at h0
    exact h0
  have hslen : (pre ++ '(' :: (ty ++ ')' :: rest)).length =
      pre.length + ty.length + 2 + rest.length := by
    simp only [List.length_append, List.length_cons]
    omega
  have htake1 : (pre ++ '(' :: (ty ++ ')' :: rest)).take
      (pre.length + ty.length + 1) = pre ++ '(' :: ty := by
    rw [← hassoc]
    exact List.take_left' hlenA
  have hslice1 : pySlice (pre ++ '(' :: (ty ++ ')' :: rest))
      (pre.length : ℤ) ((pre.length + ty.length + 1 : ℕ) : ℤ) = '(' :: ty := by
    rw [pySlice, pyIdx_natCast, pyIdx_natCast,
      min_eq_left (by rw [hslen]; omega), min_eq_left (by rw [hslen]; omega),
      htake1]
    exact List.drop_left' rfl
  have hcast : (((pre.length + ty.length + 1 : ℕ) : ℤ) + 1) =
      ((pre.length + ty.length + 2 : ℕ) : ℤ) := by
    push_cast
    ring
  have hslice2 : pySlice (pre ++ '(' :: (ty ++ ')' :: rest))
      (((pre.length + ty.length + 1 : ℕ) : ℤ) + 1)
      ((pre ++ '(' :: (ty ++ ')' :: rest)).length : ℤ) = rest := by
    rw [pySlice, hcast, pyIdx_natCast, pyIdx_natCast, min_self,
      List.take_length, min_eq_left (by rw [hslen]; omega), ← hassoc2]
    exact List.drop_left' hlenB
  have hmemty : ∀ d ∈ ty, d ∉ (")(").toList := by
    intro d hd hmem
    have hmem2 : d = ')' ∨ d = '(' := by
      have hmem1 : d ∈ [')', '('] := hmem
      simpa using hmem1
    rcases hmem2 with rfl | rfl
    · exact h4 hd
    · exact h3 hd
  simp only [extract_type, pyFind, hfl, hfr, hslice1, hslice2]
  rw [stripSet_cons_of_mem (by decide) hmemty]

/-- C8 counterexample: both "## Tracker" and "## Hyperparameters" are
recognized sections of depth 2, yet the depth-2 heading "## Hyperparameters"
does not terminate collection for "## Tracker": the entry line `b: 2 ...`
that follows it still lands in the Tracker section's output. -/
theorem build_equal_depth_heading_cex :
    section_depth (("## Tracker").toList) = 2 ∧
    section_depth (("## Hyperparameters").toList) = 2 ∧
    buildTables txtEqualDepth = .ok
      [(("## Tracker").toList,
        [.entry ⟨("a").toList, ("1 ").toList, ("int").toList, ("x").toList⟩
           false 0,
         .subheading (("Hyperparameters: ").toList) 2,
         .entry ⟨("b").toList, ("2 ").toList, ("int").toList, ("y").toList⟩
           true 2]),
       (("## Hyperparameters").toList,
        [.entry ⟨("b").toList, ("2 ").toList, ("int").toList, ("y").toList⟩
           false 0])] ∧
    Fragment.entry ⟨("b").toList, ("2 ").toList, ("int").toList, ("y").toList⟩
        true 2 ∈
      [Fragment.entry ⟨("a").toList, ("1 ").toList, ("int").toList, ("x").toList⟩
         false 0,
       Fragment.subheading (("Hyperparameters: ").toList) 2,
       Fragment.entry ⟨("b").toList, ("2 ").toList, ("int").toList, ("y").toList⟩
         true 2] := by
  decide

/-- C8 amended: only a heading of depth exactly 1 terminates entry collection
for a section; a heading of depth 2 or more starts a sub-group and collection
continues, so a depth-2 section is not terminated by an equal-depth heading.
After a depth-1 heading no later line contributes to the section's output. -/
theorem collect_stops_only_at_depth_one (pre post : List Line) (hl : Line)
    (hdep : section_depth hl = 1) :
    ∀ isSub subD, collectFragments (pre ++ hl :: post) isSub subD =
      collectFragments (pre ++ [hl]) isSub subD := by
  induction pre with
  | nil =>
    intro isSub subD
    simp [collectFragments, hdep]
  | cons l rest ih =>
    intro isSub subD
    simp only [List.cons_append, collectFragments]
    by_cases h0 : section_depth l = 0
    · rw [if_pos h0, if_pos h0]
      cases hpe : parseEntry l with
      | error e => rfl
      | ok ed =>
        simp only [List.append_eq]
        rw [ih isSub subD]
    · rw [if_neg h0, if_neg h0]
      by_cases hone : section_depth l = 1
      · rw [if_pos hone, if_pos hone]
      · rw [if_neg hone, if_neg hone]
        simp only [List.append_eq]
        rw [ih true (section_depth l)]

/-- Witness for the amended C8: a depth-1 heading cuts off every later line;
the lines after it contribute nothing to the collected fragments. -/
theorem collect_stops_only_at_depth_one_witness :
    section_depth (("# Top").toList) = 1 ∧
    collectFragments
      ([("a: 1 # (int) x").toList] ++ ("# Top").toList ::
        [("b: 2 # (int) y").toList]) false 0 =
      collectFragments ([("a: 1 # (int) x").toList] ++ [("# Top").toList])
        false 0 :=
  ⟨by decide,
   collect_stops_only_at_depth_one [("a: 1 # (int) x").toList]
     [("b: 2 # (int) y").toList] (("# Top").toList) (by decide) false 0⟩

/-- C9 counterexample: on the comment `(a:b) c`, the builder replaces the
colon inside the parenthesized group before extracting the type (because the
colon replacement runs on the whole comment first), producing type `a -b`,
while the claim's reading (type taken from the raw parenthesized group)
produces `a:b`. -/
theorem extract_type_colon_cex :
    (processComment (("(a:b) c").toList)).1 = ("a -b").toList ∧
    (specTypeDesc (("(a:b) c").toList)).1 = ("a:b").toList ∧
    processComment (("(a:b) c").toList) ≠ specTypeDesc (("(a:b) c").toList) := by
  decide

/-- C9 amended: the builder first truncates the comment at the first `http`
and replaces every colon with `" -"`, and only then extracts the type as the
contents of the first parenthesized group of the transformed text (with
`optional` and `", "` removed and `|` replaced by `or`) and the description
as the whitespace-stripped text after that group's closing parenthesis. -/
theorem processComment_spec (c pre ty rest : Line)
    (hc : replaceAll ((":").toList) ((" -").toList)
        ((pySplit (("http").toList) c).headD []) =
      pre ++ '(' :: (ty ++ ')' :: rest))
    (h1 : '(' ∉ pre) (h2 : ')' ∉ pre) (h3 : '(' ∉ ty) (h4 : ')' ∉ ty) :
    processComment c = (typeReps ty, stripWs rest) := by
  rw [processComment, hc]
  exact extract_type_shape pre ty rest h1 h2 h3 h4

/-- Witness for the amended C9 on the comment `(int) speed: high  http://u`:
the type is `int` and the description is the colon-escaped, URL-stripped,
whitespace-stripped remainder. -/
theorem processComment_spec_witness :
    processComment (("(int) speed: high  http://u").toList) =
      (("int").toList, ("speed - high").toList) :=
  (processComment_spec (("(int) speed: high  http://u").toList) []
      (("int").toList) ((" speed - high  ").toList) (by decide) (by decide)
      (by decide) (by decide) (by decide)).trans (by decide)

end BuildTables
